import Mathlib

/-!
Verification development for the TrendRadar topic-matching and aggregation
core.  The definitions below are a shallow embedding of the Python sources:

* `src/docker/frequency_helper.py` — term parsing (`_parse_word_fallback`),
  term matching (`_word_matches_fallback`), the configuration parser
  (`load_frequency_words_extended`) and the classifier (`find_matched_topics`);
* `src/mcp_server/services/parser_service_helper.py` — the block parser
  (`_parse_word_block`);
* `src/docker/api_server.py` — the aggregation pipelines
  (`get_data_from_db`, `parse_index_html`) and the cache refresh logic
  (`refresh_cache`).

Python strings are modelled as `List Char`; Python `str.lower`/`str.upper`
are modelled with `Char.toLower`/`Char.toUpper` (adequate for the ASCII
configuration syntax the code manipulates); compiled regular expressions are
modelled as opaque search functions supplied by a compile oracle
`rc : Str → Option (Str → Bool)` standing for `re.compile(p, re.IGNORECASE)`
(`none` models `re.error`).
-/

/-- Python strings, modelled as lists of characters. -/
abbrev Str := List Char

/-- Convert a Lean string literal to the `Str` model. -/
def toStr (s : String) : Str := s.data

/-- Python `str.lower()`. -/
def lowerStr (s : Str) : Str := s.map Char.toLower

/-- Python `str.upper()`. -/
def upperStr (s : Str) : Str := s.map Char.toUpper

/-- Python `str.strip()` with the default whitespace set. -/
def pyStrip (s : Str) : Str :=
  ((s.dropWhile Char.isWhitespace).reverse.dropWhile Char.isWhitespace).reverse

/-- Python substring containment `needle in haystack` (on already-folded
strings). -/
def containsSub (needle : Str) : Str → Bool
  | [] => needle.isEmpty
  | c :: rest => needle.isPrefixOf (c :: rest) || containsSub needle rest

/-- Index of the first occurrence of `sep` as a contiguous substring,
`none` when absent.  Models the scanning done by Python `str.find`,
`str.split(sep, 1)` and `in`. -/
def findSubIdx (sep : Str) : Str → Option Nat
  | [] => if sep.isEmpty then some 0 else none
  | c :: rest =>
      if sep.isPrefixOf (c :: rest) then some 0
      else (findSubIdx sep rest).map (· + 1)

/-- Fuelled worker for `pySplitSub`. -/
def pySplitSubAux (sep : Str) : Nat → Str → List Str
  | 0, s => [s]
  | fuel + 1, s =>
      match findSubIdx sep s with
      | none => [s]
      | some i => s.take i :: pySplitSubAux sep fuel (s.drop (i + sep.length))

/-- Python `s.split(sep)` for a non-empty separator string (used with
`"\n\n"`): repeated, non-overlapping, left-to-right splitting, keeping
empty segments.  The fuel `s.length` suffices because every step removes
at least one character. -/
def pySplitSub (sep s : Str) : List Str := pySplitSubAux sep s.length s

/-- Python `a or b` on an optional string against a fallback: `None` and
the empty string are falsy. -/
def pyOrStr (a : Option Str) (b : Str) : Str :=
  match a with
  | some s => if s = [] then b else s
  | none => b

/-- Python truthiness of a `str | None` variable. -/
def pyTruthyOpt (a : Option Str) : Bool :=
  match a with
  | some s => !s.isEmpty
  | none => false

/-- Python `int(s)` restricted to the forms the configuration can contain:
optional surrounding whitespace, an optional sign, then decimal digits.
Returns `none` where Python raises `ValueError`. -/
def pyParseInt (s : Str) : Option Int :=
  let t := pyStrip s
  let (sign, digits) : Int × Str :=
    match t with
    | '-' :: rest => (-1, rest)
    | '+' :: rest => (1, rest)
    | _ => (1, t)
  if digits = [] || !digits.all Char.isDigit then none
  else some (sign * (digits.foldl (fun acc c => acc * 10 + (c.toNat - '0'.toNat)) 0 : Nat))

/-- A parsed term (`_parse_word_fallback` result dictionary in
`frequency_helper.py`): the matchable text, the regex flag, the compiled
pattern (an opaque search function) and the optional display alias. -/
structure WordConfig where
  word : Str
  is_regex : Bool
  pattern : Option (Str → Bool)
  display_name : Option Str

/-- The display alias when it is truthy (neither `None` nor empty). -/
def truthyDisplay (w : WordConfig) : Option Str :=
  match w.display_name with
  | some d => if d = [] then none else some d
  | none => none

/-- Python `w.get("display_name") or w["word"]`. -/
def displayOf (w : WordConfig) : Str := pyOrStr w.display_name w.word

/-- The alias split performed by `_parse_word_fallback`: when `"=>"`
occurs in the token, the text before the first occurrence (stripped)
becomes the matching word and the stripped text after it becomes the
display name when non-empty.  (The Python code splits on the regex
`\s*=>\s*` and then strips both parts, which is equivalent.) -/
def pySplitAlias (w : Str) : Str × Option Str :=
  match findSubIdx (toStr "=>") w with
  | some i =>
      let left := pyStrip (w.take i)
      let right := pyStrip (w.drop (i + 2))
      (left, if right = [] then none else some right)
  | none => (w, none)

/-- Characters allowed in the flags group of `^/(.+)/([gimsux]*)$`. -/
def isRegexFlagChar (c : Char) : Bool :=
  c = 'g' || c = 'i' || c = 'm' || c = 's' || c = 'u' || c = 'x'

/-- Python `re.match(r'^/(.+)/([gimsux]*)$', w)`: the token starts with a
slash and the greedy `(.+)` makes the pattern run to the last slash whose
suffix consists only of flag characters; `.` does not cross a newline and
the pattern group must be non-empty. -/
def pyRegexForm (w : Str) : Option (Str × Str) :=
  match w with
  | '/' :: rest =>
      let cands := (List.range rest.length).filter fun j =>
        decide (1 ≤ j) && (rest.getD j ' ' == '/')
          && (rest.take j).all (fun c => c != '\n')
          && (rest.drop (j + 1)).all isRegexFlagChar
      match cands.getLast? with
      | some j => some (rest.take j, rest.drop (j + 1))
      | none => none
  | _ => none

/-- Embedding of `_parse_word_fallback` (frequency_helper.py lines 31-59),
parameterised by the compile oracle `rc` standing for
`re.compile(pattern, re.IGNORECASE)`.  A token `/pattern/flags` whose
pattern compiles becomes a regex term on the bare pattern; a compile
failure (`rc = none`, Python `re.error`) degrades to a literal term on the
raw (alias-stripped) token. -/
def _parse_word_fallback (rc : Str → Option (Str → Bool)) (w0 : Str) : WordConfig :=
  let (w, dn) := pySplitAlias w0
  match pyRegexForm w with
  | some pf =>
      match rc pf.1 with
      | some p => { word := pf.1, is_regex := true, pattern := some p, display_name := dn }
      | none => { word := w, is_regex := false, pattern := none, display_name := dn }
  | none => { word := w, is_regex := false, pattern := none, display_name := dn }

/-- The name `parse_word` is bound to the fallback in the deployed module
(the upstream import is absent from this repository). -/
def parse_word (rc : Str → Option (Str → Bool)) (w : Str) : WordConfig :=
  _parse_word_fallback rc w

/-- Embedding of `_word_matches_fallback` (frequency_helper.py lines
62-72) on an already-lowercased title.  (The `isinstance(word_config, str)`
branch is unreachable for configurations produced by the parser, which
always emits dictionaries.) -/
def _word_matches_fallback (wc : WordConfig) (title_lower : Str) : Bool :=
  if wc.is_regex && wc.pattern.isSome then
    (wc.pattern.getD (fun _ => false)) title_lower
  else
    containsSub (lowerStr wc.word) title_lower

/-- The name `word_matches` is bound to the fallback in the deployed
module. -/
def word_matches (wc : WordConfig) (title_lower : Str) : Bool :=
  _word_matches_fallback wc title_lower

/-- One classifier result (`{"topic": ..., "matched": [...]}`). -/
structure MatchResult where
  topic : Str
  matched : List Str
deriving DecidableEq

/-- One parsed word group (the dictionaries appended to
`processed_groups` in `load_frequency_words_extended`). -/
structure WordGroup where
  required : List WordConfig
  normal : List WordConfig
  filter : List WordConfig
  group_key : Str
  max_count : Nat
  category : Str
  keywords : List Str

/-- The normal-word collection loop of `find_matched_topics` (lines
284-293): matching display strings are appended, skipping duplicates. -/
def collectNormal (tl : Str) : List WordConfig → List Str → List Str
  | [], acc => acc
  | w :: ws, acc =>
      collectNormal tl ws
        (if word_matches w tl = true ∧ displayOf w ∉ acc then acc ++ [displayOf w] else acc)

/-- The required-word prepend loop of `find_matched_topics` (lines
296-300): each required display string not already present is inserted at
the front. -/
def prependRequired (tl : Str) : List WordConfig → List Str → List Str
  | [], acc => acc
  | w :: ws, acc =>
      prependRequired tl ws (if displayOf w ∉ acc then displayOf w :: acc else acc)

/-- The per-group body of the `find_matched_topics` loop (lines 262-305):
`none` models `continue`. -/
def matchGroup (tl : Str) (g : WordGroup) : Option MatchResult :=
  if g.filter.any (fun fw => word_matches fw tl) then none
  else if !g.required.isEmpty && !(g.required.all fun rw => word_matches rw tl) then none
  else if !g.normal.isEmpty && (collectNormal tl g.normal []).isEmpty then none
  else some { topic := g.group_key,
              matched := (prependRequired tl g.required (collectNormal tl g.normal [])).take 3 }

/-- Embedding of `find_matched_topics` (frequency_helper.py lines
226-307). -/
def find_matched_topics (title : Str) (word_groups : List WordGroup)
    (filter_words : List WordConfig) (global_filters : List Str) : List MatchResult :=
  if title.isEmpty || word_groups.isEmpty then []
  else if global_filters.any (fun gf => containsSub (lowerStr gf) (lowerStr title)) then []
  else if filter_words.any (fun fw => word_matches fw (lowerStr title)) then []
  else word_groups.filterMap (matchGroup (lowerStr title))

/-- The configuration section a block is parsed under; only the two named
sections exist (`current_section` in both parsers ranges over the strings
`"WORD_GROUPS"` and `"GLOBAL_FILTER"`). -/
inductive CfgSection where
  | wordGroups
  | globalFilter
deriving DecidableEq

/-- The per-block accumulator of the word loop in
`load_frequency_words_extended` (frequency_helper.py lines 151-156). -/
structure FreqBlock where
  required : List WordConfig
  normal : List WordConfig
  filters : List WordConfig
  max_count : Nat
  name : Option Str
  category : Str

/-- Initial per-block accumulator: no terms, `group_max_count = 0`,
`group_name = None`, default category `"其他"`. -/
def initFreqBlock : FreqBlock :=
  { required := [], normal := [], filters := [], max_count := 0,
    name := none, category := toStr "其他" }

/-- One iteration of the word loop of `load_frequency_words_extended`
(lines 158-188).  The second component of the pair is the file-global
`filter_words` list, which a `!`-prefixed word extends alongside the
group-local filter list. -/
def freqProcessWord (rc : Str → Option (Str → Bool))
    (bs : FreqBlock) (fws : List WordConfig) (word : Str) : FreqBlock × List WordConfig :=
  if word.head? = some '#' then
    match findSubIdx (toStr " @") (pyStrip word.tail) with
    | some i =>
        ({ bs with name := some (pyStrip ((pyStrip word.tail).take i)),
                   category := pyStrip ((pyStrip word.tail).drop (i + 2)) }, fws)
    | none => ({ bs with name := some (pyStrip word.tail) }, fws)
  else if word.head? = some '@' then
    match pyParseInt word.tail with
    | some c => if c > 0 then ({ bs with max_count := c.toNat }, fws) else (bs, fws)
    | none => (bs, fws)
  else if word.head? = some '!' then
    ({ bs with filters := bs.filters ++ [parse_word rc word.tail] },
      fws ++ [parse_word rc word.tail])
  else if word.head? = some '+' then
    ({ bs with required := bs.required ++ [parse_word rc word.tail] }, fws)
  else
    ({ bs with normal := bs.normal ++ [parse_word rc word] }, fws)

/-- The group-key determination of `load_frequency_words_extended` (lines
191-204): a truthy `#` name wins; otherwise the display name of the first
term carrying a truthy one (scanning normal then required terms); failing
that, the display-or-word of the first normal term, else of the first
required term. -/
def freqGroupKey (name : Option Str) (normal required : List WordConfig) : Str :=
  if pyTruthyOpt name then name.getD []
  else
    match (normal ++ required).findSome? truthyDisplay with
    | some d => d
    | none =>
        match normal with
        | n :: _ => pyOrStr n.display_name n.word
        | [] =>
            match required with
            | r :: _ => pyOrStr r.display_name r.word
            | [] => []

/-- The keyword extraction of `load_frequency_words_extended` (lines
207-211): display strings of normal then required terms, first occurrence
only. -/
def freqKeywords (normal required : List WordConfig) : List Str :=
  (normal ++ required).foldl
    (fun acc w => let d := displayOf w; if d ∈ acc then acc else acc ++ [d]) []

/-- Group construction at the end of a block (lines 190-221): a block with
neither required nor normal terms is dropped. -/
def freqFinishBlock (bs : FreqBlock) : Option WordGroup :=
  if bs.required.isEmpty && bs.normal.isEmpty then none
  else some
    { required := bs.required, normal := bs.normal, filter := bs.filters,
      group_key := freqGroupKey bs.name bs.normal bs.required,
      max_count := bs.max_count, category := bs.category,
      keywords := freqKeywords bs.normal bs.required }

/-- The fold state of `load_frequency_words_extended` across blocks. -/
structure FreqState where
  groups : List WordGroup
  filter_words : List WordConfig
  global_filters : List Str
  sec : CfgSection

/-- Stripped non-empty lines of one block (both parsers
`[line.strip() for line in ... if line.strip()]`). -/
def blockLines (block : Str) : List Str :=
  ((block.splitOn '\n').map pyStrip).filter (fun l => !l.isEmpty)

/-- Section-header recognition shared by both parsers: a first line of the
form `[NAME]` whose upper-cased name is one of the two known sections
switches the section and is consumed; anything else leaves the section and
the lines untouched. -/
def takeSectionHeader (current : CfgSection) (lines : List Str) : CfgSection × List Str :=
  match lines with
  | [] => (current, [])
  | l0 :: rest =>
      if l0.head? = some '[' ∧ l0.getLast? = some ']' then
        let nm := upperStr (l0.tail.dropLast)
        if nm = toStr "GLOBAL_FILTER" then (CfgSection.globalFilter, rest)
        else if nm = toStr "WORD_GROUPS" then (CfgSection.wordGroups, rest)
        else (current, l0 :: rest)
      else (current, l0 :: rest)

/-- The fold of the word loop over a block body, carrying the per-block
accumulator and the file-global `filter_words` list. -/
def freqWordsFold (rc : Str → Option (Str → Bool))
    (bs : FreqBlock) (fws : List WordConfig) (body : List Str) :
    FreqBlock × List WordConfig :=
  body.foldl (fun acc w => freqProcessWord rc acc.1 acc.2 w) (bs, fws)

/-- The body of one block of `load_frequency_words_extended` after the
section header was resolved: global-filter blocks collect their plain
lines (directive-like lines starting with `!`, `+`, `@` or `#` are
skipped); word-group blocks run the word loop and append the finished
group when it is kept (lines 139-221). -/
def freqApplySection (rc : Str → Option (Str → Bool))
    (st : FreqState) (sec : CfgSection) (body : List Str) : FreqState :=
  match sec with
  | CfgSection.globalFilter =>
      { st with sec := sec,
                global_filters := st.global_filters ++ body.filter fun l =>
                  !(l.head? = some '!' || l.head? = some '+'
                    || l.head? = some '@' || l.head? = some '#') }
  | CfgSection.wordGroups =>
      match freqFinishBlock (freqWordsFold rc initFreqBlock st.filter_words body).1 with
      | some g =>
          { st with sec := sec, groups := st.groups ++ [g],
                    filter_words := (freqWordsFold rc initFreqBlock st.filter_words body).2 }
      | none =>
          { st with sec := sec,
                    filter_words := (freqWordsFold rc initFreqBlock st.filter_words body).2 }

/-- Processing of one block of `load_frequency_words_extended` (lines
126-221). -/
def freqProcessBlock (rc : Str → Option (Str → Bool))
    (st : FreqState) (block : Str) : FreqState :=
  if (blockLines block).isEmpty then st
  else
    freqApplySection rc st (takeSectionHeader st.sec (blockLines block)).1
      (takeSectionHeader st.sec (blockLines block)).2

/-- Embedding of `load_frequency_words_extended` (frequency_helper.py
lines 80-223) from the raw configuration text (the file read is modelled
by passing the content): blocks are split on blank lines (`"\n\n"`),
stripped, and folded starting in the `WORD_GROUPS` section. -/
def loadFreqState (rc : Str → Option (Str → Bool)) (content : Str) : FreqState :=
  (((pySplitSub (toStr "\n\n") content).map pyStrip).filter (fun b => !b.isEmpty)).foldl
    (freqProcessBlock rc)
    { groups := [], filter_words := [], global_filters := [], sec := CfgSection.wordGroups }

/-- The `(word groups, filter words, global filters)` triple
`load_frequency_words_extended` returns (lines 80-223). -/
def load_frequency_words_extended (rc : Str → Option (Str → Bool))
    (content : Str) : List WordGroup × List WordConfig × List Str :=
  ((loadFreqState rc content).groups, (loadFreqState rc content).filter_words,
    (loadFreqState rc content).global_filters)

/-- The per-block accumulator of `_parse_word_block`
(parser_service_helper.py lines 64-69); terms are plain strings in this
parser. -/
structure McpBlock where
  required : List Str
  normal : List Str
  filters : List Str
  max_count : Nat
  name : Option Str
  category : Str
deriving DecidableEq

/-- Initial `_parse_word_block` accumulator. -/
def initMcpBlock : McpBlock :=
  { required := [], normal := [], filters := [], max_count := 0,
    name := none, category := toStr "其他" }

/-- Embedding of the `add_token` closure of `_parse_word_block`
(parser_service_helper.py lines 71-93): strip, drop empties, classify by
prefix `+`/`!` first, then by suffix `+`/`!`, else normal. -/
def add_token (st : McpBlock) (t0 : Str) : McpBlock :=
  let t := pyStrip t0
  if t.isEmpty then st
  else if t.head? = some '+' then
    let w := pyStrip t.tail
    if w.isEmpty then st else { st with required := st.required ++ [w] }
  else if t.head? = some '!' then
    let w := pyStrip t.tail
    if w.isEmpty then st else { st with filters := st.filters ++ [w] }
  else if t.getLast? = some '+' then
    let w := pyStrip t.dropLast
    if w.isEmpty then st else { st with required := st.required ++ [w] }
  else if t.getLast? = some '!' then
    let w := pyStrip t.dropLast
    if w.isEmpty then st else { st with filters := st.filters ++ [w] }
  else { st with normal := st.normal ++ [t] }

/-- The token list a separator line expands to in `_parse_word_block`
(lines 111-114): split on `|`, then each part on `,`, in source order. -/
def splitSeps (l : Str) : List Str :=
  ((l.splitOn '|').map (fun part => part.splitOn ',')).flatten

/-- One line of the `_parse_word_block` loop (lines 95-116). -/
def processMcpLine (st : McpBlock) (l : Str) : McpBlock :=
  if l.head? = some '#' then
    let name_part := pyStrip l.tail
    match findSubIdx (toStr " @") name_part with
    | some i =>
        let nm := pyStrip (name_part.take i)
        let cat := pyStrip (name_part.drop (i + 2))
        { st with name := if nm.isEmpty then none else some nm,
                  category := if cat.isEmpty then st.category else cat }
    | none =>
        { st with name := if name_part.isEmpty then none else some name_part }
  else if l.head? = some '@' then
    match pyParseInt (pyStrip l.tail) with
    | some c => if c > 0 then { st with max_count := c.toNat } else st
    | none => st
  else if l.contains '|' || l.contains ',' then
    (splitSeps l).foldl add_token st
  else add_token st l

/-- The group dictionary `_parse_word_block` returns. -/
structure McpGroup where
  required : List Str
  normal : List Str
  filter_words : List Str
  group_key : Str
  max_count : Nat
  category : Str
deriving DecidableEq

/-- Embedding of `_parse_word_block` (parser_service_helper.py lines
62-129): fold the lines, drop the block when it produced neither required
nor normal tokens, and default the group key to the first normal (else
first required) token when no `#` name was kept. -/
def _parse_word_block (lines : List Str) : Option McpGroup :=
  let st := lines.foldl processMcpLine initMcpBlock
  if st.required.isEmpty && st.normal.isEmpty then none
  else some
    { required := st.required, normal := st.normal, filter_words := st.filters,
      group_key :=
        match st.name with
        | some n => n
        | none => match st.normal with
                  | n :: _ => n
                  | [] => st.required.headD [],
      max_count := st.max_count, category := st.category }

/-- One merged platform entry of `get_combined_config()['platforms']`
(api_server.py): identifier, display name, enabled flag (the
`p.get('enabled', True)` default is resolved into the flag). -/
structure Platform where
  id : Str
  name : Str
  enabled : Bool
deriving DecidableEq

/-- `platform_order[p['id']] = i` built by `enumerate`; a duplicated id
keeps the last index, hence the reversed search. -/
def platOrderById (ps : List Platform) (pid : Str) : Option Nat :=
  (ps.enum.reverse.find? (fun ip => ip.2.id == pid)).map (·.1)

/-- `platform_names` lookup (last occurrence wins). -/
def platNameById (ps : List Platform) (pid : Str) : Option Str :=
  (ps.reverse.find? (fun p => p.id == pid)).map (·.name)

/-- `platform_enabled` lookup (last occurrence wins). -/
def platEnabledById (ps : List Platform) (pid : Str) : Option Bool :=
  (ps.reverse.find? (fun p => p.id == pid)).map (·.enabled)

/-- `platform_order` keyed by display name, as built in `parse_index_html`
(api_server.py lines 423-427). -/
def platOrderByName (ps : List Platform) (nm : Str) : Option Nat :=
  (ps.enum.reverse.find? (fun ip => ip.2.name == nm)).map (·.1)

/-- `enabled_by_name` lookup of `parse_index_html` (line 428). -/
def platEnabledByName (ps : List Platform) (nm : Str) : Option Bool :=
  (ps.reverse.find? (fun p => p.name == nm)).map (·.enabled)

/-- One row of the `news_items` query in `get_data_from_db` (api_server.py
lines 529-535).  `platform_name` is the LEFT-JOINed name (`NULL` possible);
`is_new` models the already-evaluated `first_crawl_time > one_hour_ago`
comparison (wall-clock parsing is outside the embedding). -/
structure NewsRow where
  title : Str
  url : Str
  rank : Int
  platform_id : Str
  platform_name : Option Str
  is_new : Bool

/-- The dictionary appended for a news row (`news_item`, lines 563-571). -/
structure NewsItem where
  title : Str
  url : Str
  rank : Int
  source : Str
  isNew : Bool
  matchedTopics : List MatchResult
deriving DecidableEq

/-- One topic bucket of `get_data_from_db` with its title-dedup set
(`topics[i]` plus `topic_news_seen[i]`, lines 497-518). -/
structure TopicState where
  name : Str
  category : Str
  keywords : List Str
  news : List NewsItem
  seen : List Str
deriving DecidableEq

/-- One source bucket of `get_data_from_db` (`sources_dict[platform_name]`,
lines 583-591), with the `order` value still attached. -/
structure SourceState where
  id : Str
  name : Str
  order : Nat
  news : List NewsItem
deriving DecidableEq

/-- The topic-attribution step for one match result (lines 573-580): the
item is appended to the first topic whose name equals the matched topic,
unless the title was already seen there. -/
def addToFirstTopic (nm title : Str) (item : NewsItem) : List TopicState → List TopicState
  | [] => []
  | t :: ts =>
      if t.name = nm then
        (if title ∈ t.seen then t
         else { t with seen := title :: t.seen, news := t.news ++ [item] }) :: ts
      else t :: addToFirstTopic nm title item ts

/-- The source-bucket update for one matched item (lines 582-591): append
to the existing bucket keyed by display name, or create it at the end
(insertion order of a Python dict). -/
def addToSource (pid pname : Str) (ord : Nat) (item : NewsItem) :
    List SourceState → List SourceState
  | [] => [{ id := pid, name := pname, order := ord, news := [item] }]
  | s :: ss =>
      if s.name = pname then { s with news := s.news ++ [item] } :: ss
      else s :: addToSource pid pname ord item ss

/-- Processing of one news row in `get_data_from_db` (lines 545-591):
resolve the display name, drop the row entirely when its platform is
disabled, classify the title, attribute each match to the first topic of
that name, and record the item under its source when it matched at all. -/
def dbProcessRow (gs : List WordGroup) (fws : List WordConfig) (gfs : List Str)
    (ps : List Platform) (st : List TopicState × List SourceState)
    (r : NewsRow) : List TopicState × List SourceState :=
  let pname := (platNameById ps r.platform_id).getD (pyOrStr r.platform_name r.platform_id)
  if (platEnabledById ps r.platform_id).getD true = false then st
  else
    let mts := find_matched_topics r.title gs fws gfs
    let item : NewsItem :=
      { title := r.title, url := r.url, rank := r.rank, source := pname,
        isNew := r.is_new, matchedTopics := mts }
    let topics := mts.foldl (fun ts mt => addToFirstTopic mt.topic r.title item ts) st.1
    let sources :=
      if mts.isEmpty then st.2
      else addToSource r.platform_id pname ((platOrderById ps r.platform_id).getD 999) item st.2
    (topics, sources)

/-- The topic buckets `get_data_from_db` initialises from the word groups
(lines 497-518): one per group, in configuration order, empty. -/
def dbInitTopics (gs : List WordGroup) : List TopicState :=
  gs.map fun g =>
    { name := g.group_key, category := g.category, keywords := g.keywords,
      news := [], seen := [] }

/-- The news-path core of `get_data_from_db` (api_server.py lines
497-591): fold the rows over the initial topic buckets and an empty
source dictionary.  (The RSS loop, lines 605-679, has the same shape with
feed lookups in place of platform lookups.) -/
def get_data_from_db_news (gs : List WordGroup) (fws : List WordConfig) (gfs : List Str)
    (ps : List Platform) (rows : List NewsRow) : List TopicState × List SourceState :=
  rows.foldl (dbProcessRow gs fws gfs ps) (dbInitTopics gs, [])

/-- Insertion of one element into an already-sorted list, after every
element it is `le`-greater-or-equal to — the stable discipline of Python
`list.sort` / `sorted`. -/
def insertR (le : α → α → Bool) (x : α) : List α → List α
  | [] => [x]
  | y :: ys => if le y x then y :: insertR le x ys else x :: y :: ys

/-- Stable sort modelling Python `sorted(..., key=...)`: elements are
inserted left to right, each after its equals. -/
def pySort (le : α → α → Bool) (l : List α) : List α :=
  l.foldl (fun acc x => insertR le x acc) []

/-- The source-bucket ordering of `get_data_from_db` (line 695):
`sorted(sources_dict.values(), key=lambda x: x['order'])` — the configured
order alone, no tiebreak. -/
def db_sources_sorted (gs : List WordGroup) (fws : List WordConfig) (gfs : List Str)
    (ps : List Platform) (rows : List NewsRow) : List SourceState :=
  pySort (fun a b => decide (a.order ≤ b.order)) (get_data_from_db_news gs fws gfs ps rows).2

/-- One news item of a topic parsed out of `index.html`
(`parse_index_html`, api_server.py lines 355-369); `titleForMatch` carries
the `_title_for_match` field (equal to the title at parse time). -/
structure PNews where
  title : Str
  url : Str
  source : Str
  isNew : Bool
  titleForMatch : Str
deriving DecidableEq

/-- One topic as parsed out of `index.html` (lines 371-376). -/
structure HTopic where
  name : Str
  count : Nat
  news : List PNews
deriving DecidableEq

/-- A topic news item after enrichment (lines 394-400). -/
structure ENews where
  title : Str
  url : Str
  source : Str
  isNew : Bool
  matchedTopics : List MatchResult
deriving DecidableEq

/-- A topic after the enrichment loop of `parse_index_html` (lines
383-400). -/
structure ETopic where
  name : Str
  category : Str
  keywords : List Str
  count : Nat
  news : List ENews
deriving DecidableEq

/-- The topic-enrichment loop of `parse_index_html` (lines 383-400): a
topic aligned with a word group takes its key, keywords and category;
every news item gets its `matchedTopics`. -/
def enrichTopics (gs : List WordGroup) (fws : List WordConfig) (gfs : List Str)
    (ts : List HTopic) : List ETopic :=
  ts.enum.map fun it =>
    let t := it.2
    let (nm, kw, cat) :=
      match gs[it.1]? with
      | some g => (g.group_key, g.keywords, g.category)
      | none => (t.name, [], toStr "其他")
    { name := nm, category := cat, keywords := kw, count := t.count,
      news := t.news.map fun n =>
        { title := n.title, url := n.url, source := n.source, isNew := n.isNew,
          matchedTopics := find_matched_topics n.titleForMatch gs fws gfs } }

/-- The per-source item record of the `parse_index_html` source loop
(lines 414-420). -/
structure SNews where
  title : Str
  url : Str
  topic : Str
  matchedTopics : List MatchResult
  isNew : Bool
deriving DecidableEq

/-- Append an item under its source key in the insertion-ordered
dictionary (lines 406-420). -/
def sAssocAppend (key : Str) (item : SNews) :
    List (Str × List SNews) → List (Str × List SNews)
  | [] => [(key, [item])]
  | kv :: rest =>
      if kv.1 = key then (kv.1, kv.2 ++ [item]) :: rest
      else kv :: sAssocAppend key item rest

/-- The source-aggregation loop of `parse_index_html` (lines 402-420),
over the enriched topics. -/
def buildParseSources (gs : List WordGroup) (fws : List WordConfig) (gfs : List Str)
    (ts : List ETopic) : List (Str × List SNews) :=
  ts.foldl
    (fun acc t =>
      t.news.foldl
        (fun acc n =>
          sAssocAppend n.source
            { title := n.title, url := n.url, topic := t.name,
              matchedTopics := find_matched_topics n.title gs fws gfs,
              isNew := n.isNew } acc)
        acc)
    []

/-- One source bucket of `parse_index_html` before the `order` field is
deleted (lines 431-434). -/
structure PSource where
  name : Str
  count : Nat
  news : List SNews
  order : Nat
deriving DecidableEq

/-- The sort predicate of `parse_index_html` line 437:
`key=lambda x: (x['order'], -x['count'])`. -/
def parseSourceLe (a b : PSource) : Bool :=
  decide (a.order < b.order ∨ (a.order = b.order ∧ b.count ≤ a.count))

/-- The source list of `parse_index_html` (lines 422-440): bucket records
with configured order (default 999), disabled platforms filtered out,
stably sorted by `(order, -count)`; the `order` field is kept here (the
code deletes it just before returning). -/
def parse_sources_sorted (gs : List WordGroup) (fws : List WordConfig) (gfs : List Str)
    (ps : List Platform) (ts : List HTopic) : List PSource :=
  let m := buildParseSources gs fws gfs (enrichTopics gs fws gfs ts)
  let lst : List PSource := m.map fun kv =>
    { name := kv.1, count := kv.2.length, news := kv.2,
      order := (platOrderByName ps kv.1).getD 999 }
  let kept := lst.filter fun s => (platEnabledByName ps s.name).getD true
  pySort parseSourceLe kept

/-- The aggregation result of `parse_index_html` relevant to the claims:
the enriched topic list and the sorted source list (lines 383-442). -/
def parse_index_agg (gs : List WordGroup) (fws : List WordConfig) (gfs : List Str)
    (ps : List Platform) (ts : List HTopic) : List ETopic × List PSource :=
  (enrichTopics gs fws gfs ts, parse_sources_sorted gs fws gfs ps ts)

/-- Outcome of one rebuild attempt (`get_data_from_db` or
`parse_index_html` inside `refresh_cache`): an exception, the
`None, None, None` no-data triple, or a data triple. -/
inductive BuildResult (T S : Type) where
  | raised
  | nodata
  | ok (update_time : Str) (topics : List T) (sources : List S)

/-- The cached snapshot (`cache` dictionary of api_server.py lines
59-65). -/
structure CacheModel (T S : Type) where
  update_time : Str
  topics : List T
  sources : List S
  last_modified : Nat
  cache_time : Str

/-- Embedding of `refresh_cache` (api_server.py lines 709-737),
parameterised by the two rebuild outcomes, the wall clock, and
`apply_topics_order` (a total function: it catches its own exceptions and
returns its input on error, lines 740-776).  The database path is tried
first; `parse_index_html` only runs when it yielded no topics; an
exception or two no-data results leave the cache untouched and return
`false`; a data triple replaces every cache field together and returns
`true`. -/
def refresh_cache {T S : Type} (applyOrder : List T → List T)
    (db html : BuildResult T S) (now : Nat) (nowStr : Str)
    (c : CacheModel T S) : CacheModel T S × Bool :=
  match db with
  | BuildResult.raised => (c, false)
  | BuildResult.ok ut tps srcs =>
      ({ update_time := ut, topics := applyOrder tps, sources := srcs,
         last_modified := now, cache_time := nowStr }, true)
  | BuildResult.nodata =>
      match html with
      | BuildResult.raised => (c, false)
      | BuildResult.nodata => (c, false)
      | BuildResult.ok ut tps srcs =>
          ({ update_time := ut, topics := applyOrder tps, sources := srcs,
             last_modified := now, cache_time := nowStr }, true)

/-- A fixed compile oracle under which no pattern compiles (every token
degrades to a literal term); used to instantiate the parser on concrete
configurations. -/
def rc0 : Str → Option (Str → Bool) := fun _ => none

theorem mem_insertR {α : Type} (le : α → α → Bool) (x a : α) :
    ∀ l : List α, a ∈ insertR le x l → a = x ∨ a ∈ l := by
  intro l
  induction l with
  | nil => intro h; simpa [insertR] using h
  | cons y ys ih =>
      intro h
      simp only [insertR] at h
      split at h
      · rcases List.mem_cons.mp h with h1 | h1
        · exact Or.inr (List.mem_cons.mpr (Or.inl h1))
        · rcases ih h1 with h2 | h2
          · exact Or.inl h2
          · exact Or.inr (List.mem_cons.mpr (Or.inr h2))
      · rcases List.mem_cons.mp h with h1 | h1
        · exact Or.inl h1
        · exact Or.inr h1

theorem mem_pySort {α : Type} (le : α → α → Bool) (a : α) :
    ∀ (l acc : List α), a ∈ l.foldl (fun acc x => insertR le x acc) acc →
      a ∈ acc ∨ a ∈ l := by
  intro l
  induction l with
  | nil => intro acc h; exact Or.inl h
  | cons x xs ih =>
      intro acc h
      rcases ih (insertR le x acc) h with h' | h'
      · rcases mem_insertR le x a acc h' with h'' | h''
        · exact Or.inr (by simp [h''])
        · exact Or.inl h''
      · exact Or.inr (List.mem_cons_of_mem x h')

theorem pairwise_insertR {α : Type} (le : α → α → Bool)
    (htot : ∀ a b, le a b = true ∨ le b a = true)
    (htr : ∀ a b c, le a b = true → le b c = true → le a c = true)
    (x : α) : ∀ l : List α, l.Pairwise (fun a b => le a b = true) →
      (insertR le x l).Pairwise (fun a b => le a b = true) := by
  intro l
  induction l with
  | nil => intro _; simp [insertR]
  | cons y ys ih =>
      intro h
      rcases List.pairwise_cons.mp h with ⟨hy, hys⟩
      simp only [insertR]
      split
      case isTrue hle =>
        refine List.pairwise_cons.mpr ⟨?_, ih hys⟩
        intro b hb
        rcases mem_insertR le x b ys hb with hb' | hb'
        · exact hb' ▸ hle
        · exact hy b hb'
      case isFalse hle =>
        have hxy : le x y = true := by
          rcases htot x y with h' | h'
          · exact h'
          · exact absurd h' hle
        refine List.pairwise_cons.mpr ⟨?_, h⟩
        intro b hb
        rcases List.mem_cons.mp hb with hb' | hb'
        · exact hb' ▸ hxy
        · exact htr x y b hxy (hy b hb')

theorem pairwise_pySort {α : Type} (le : α → α → Bool)
    (htot : ∀ a b, le a b = true ∨ le b a = true)
    (htr : ∀ a b c, le a b = true → le b c = true → le a c = true)
    (l : List α) : (pySort le l).Pairwise (fun a b => le a b = true) := by
  suffices h : ∀ (l acc : List α), acc.Pairwise (fun a b => le a b = true) →
      (l.foldl (fun acc x => insertR le x acc) acc).Pairwise (fun a b => le a b = true) by
    exact h l [] (by simp)
  intro l
  induction l with
  | nil => intro acc hacc; exact hacc
  | cons x xs ih => intro acc hacc; exact ih _ (pairwise_insertR le htot htr x acc hacc)

/-- C1: for every title and configuration, if some global filter literal
is a case-insensitive substring of the title, `find_matched_topics`
returns the empty list (the group loop is never reached). -/
theorem find_matched_topics_global_filter_veto
    (title : Str) (gs : List WordGroup) (fws : List WordConfig) (gfs : List Str)
    (gf : Str) (hmem : gf ∈ gfs)
    (hsub : containsSub (lowerStr gf) (lowerStr title) = true) :
    find_matched_topics title gs fws gfs = [] := by
  unfold find_matched_topics
  by_cases h0 : (title.isEmpty || gs.isEmpty) = true
  · simp [h0]
  · have hany : gfs.any (fun g => containsSub (lowerStr g) (lowerStr title)) = true :=
      List.any_eq_true.mpr ⟨gf, hmem, hsub⟩
    simp [h0, hany]

theorem find_matched_topics_global_filter_veto_witness :
    find_matched_topics (toStr "Bad News")
      [{ required := [], normal := [⟨toStr "news", false, none, none⟩], filter := [],
         group_key := toStr "news", max_count := 0, category := toStr "其他",
         keywords := [toStr "news"] }] [] [toStr "ad"] = [] :=
  find_matched_topics_global_filter_veto (toStr "Bad News")
    [{ required := [], normal := [⟨toStr "news", false, none, none⟩], filter := [],
       group_key := toStr "news", max_count := 0, category := toStr "其他",
       keywords := [toStr "news"] }] [] [toStr "ad"] (toStr "ad")
    (by decide) (by decide)

/-- C10: an empty title or an empty word-group list makes
`find_matched_topics` return the empty list before any filter or group is
examined. -/
theorem find_matched_topics_empty_inputs
    (title : Str) (gs : List WordGroup) (fws : List WordConfig) (gfs : List Str)
    (h : title = [] ∨ gs = []) :
    find_matched_topics title gs fws gfs = [] := by
  rcases h with h | h <;> simp [find_matched_topics, h]

theorem find_matched_topics_empty_inputs_witness :
    find_matched_topics []
      [{ required := [], normal := [⟨toStr "news", false, none, none⟩], filter := [],
         group_key := toStr "news", max_count := 0, category := toStr "其他",
         keywords := [toStr "news"] }]
      [⟨toStr "x", false, none, none⟩] [toStr "y"] = [] :=
  find_matched_topics_empty_inputs _ _ _ _ (Or.inl rfl)

/-- C7: `refresh_cache` leaves the cached snapshot untouched and reports
`false` whenever the rebuild raised or produced no topics (from both the
database path and the HTML fallback); only a successful rebuild replaces
the snapshot, and then it replaces every field at once. -/
theorem refresh_cache_failure_preserves {T S : Type}
    (applyOrder : List T → List T) (db html : BuildResult T S)
    (now : Nat) (nowStr : Str) (c : CacheModel T S) :
    ((db = BuildResult.raised ∨
        (db = BuildResult.nodata ∧
          (html = BuildResult.raised ∨ html = BuildResult.nodata))) →
      refresh_cache applyOrder db html now nowStr c = (c, false)) ∧
    ((refresh_cache applyOrder db html now nowStr c).2 = false →
      (refresh_cache applyOrder db html now nowStr c).1 = c) ∧
    ((refresh_cache applyOrder db html now nowStr c).2 = true →
      ∃ ut tps srcs,
        (db = BuildResult.ok ut tps srcs ∨
          (db = BuildResult.nodata ∧ html = BuildResult.ok ut tps srcs)) ∧
        (refresh_cache applyOrder db html now nowStr c).1 =
          { update_time := ut, topics := applyOrder tps, sources := srcs,
            last_modified := now, cache_time := nowStr }) := by
  cases db with
  | raised => simp [refresh_cache]
  | ok ut tps srcs =>
      refine ⟨?_, ?_, ?_⟩
      · rintro (h | ⟨h, -⟩) <;> simp at h
      · intro h; simp [refresh_cache] at h
      · intro _; exact ⟨ut, tps, srcs, Or.inl rfl, rfl⟩
  | nodata =>
      cases html with
      | raised => simp [refresh_cache]
      | nodata => simp [refresh_cache]
      | ok ut tps srcs =>
          refine ⟨?_, ?_, ?_⟩
          · rintro (h | ⟨-, h | h⟩) <;> simp at h
          · intro h; simp [refresh_cache] at h
          · intro _; exact ⟨ut, tps, srcs, Or.inr ⟨rfl, rfl⟩, rfl⟩

theorem refresh_cache_failure_preserves_witness :
    refresh_cache id BuildResult.raised BuildResult.raised 0 []
      ({ update_time := [], topics := [7], sources := [], last_modified := 3,
         cache_time := [] } : CacheModel Nat Nat)
      = ({ update_time := [], topics := [7], sources := [], last_modified := 3,
           cache_time := [] }, false) :=
  (refresh_cache_failure_preserves id BuildResult.raised BuildResult.raised 0 []
    ({ update_time := [], topics := [7], sources := [], last_modified := 3,
       cache_time := [] } : CacheModel Nat Nat)).1 (Or.inl rfl)

/-- C8: a token of the form `/pattern/flags` whose pattern compiles under
the IGNORECASE oracle becomes a regex term carrying the compiled pattern;
when compilation fails the token degrades to a literal term on the raw
(alias-stripped) token text and parsing is total, so the rest of the
configuration parse continues. -/
theorem parse_word_regex_degrade
    (rc : Str → Option (Str → Bool)) (w w1 : Str) (dn : Option Str)
    (pat flags : Str)
    (halias : pySplitAlias w = (w1, dn))
    (hform : pyRegexForm w1 = some (pat, flags)) :
    (∀ p, rc pat = some p →
      parse_word rc w = { word := pat, is_regex := true, pattern := some p, display_name := dn }) ∧
    (rc pat = none →
      parse_word rc w = { word := w1, is_regex := false, pattern := none, display_name := dn }) := by
  constructor
  · intro p hp
    simp [parse_word, _parse_word_fallback, halias, hform, hp]
  · intro hp
    simp [parse_word, _parse_word_fallback, halias, hform, hp]

theorem parse_word_regex_degrade_witness :
    parse_word rc0 (toStr "/ab+c/i") =
      { word := toStr "/ab+c/i", is_regex := false, pattern := none, display_name := none } :=
  (parse_word_regex_degrade rc0 (toStr "/ab+c/i") (toStr "/ab+c/i") none
    (toStr "ab+c") (toStr "i") (by decide) (by decide)).2 rfl

theorem collectNormal_mem (tl : Str) :
    ∀ (ws : List WordConfig) (acc : List Str) (x : Str),
      x ∈ collectNormal tl ws acc → x ∈ acc ∨ ∃ w ∈ ws, displayOf w = x := by
  intro ws
  induction ws with
  | nil => intro acc x h; exact Or.inl h
  | cons w ws ih =>
      intro acc x h
      simp only [collectNormal] at h
      rcases ih _ x h with h' | ⟨w', hw', hd⟩
      · split at h'
        · rcases List.mem_append.mp h' with h'' | h''
          · exact Or.inl h''
          · refine Or.inr ⟨w, List.mem_cons_self w ws, ?_⟩
            simpa using (List.mem_singleton.mp h'').symm
        · exact Or.inl h'
      · exact Or.inr ⟨w', List.mem_cons_of_mem w hw', hd⟩

theorem collectNormal_nodup (tl : Str) :
    ∀ (ws : List WordConfig) (acc : List Str), acc.Nodup →
      (collectNormal tl ws acc).Nodup := by
  intro ws
  induction ws with
  | nil => intro acc h; exact h
  | cons w ws ih =>
      intro acc h
      simp only [collectNormal]
      apply ih
      split
      case isTrue hc =>
        refine List.Nodup.append h (List.nodup_singleton _) ?_
        intro a ha hb
        rw [List.mem_singleton.mp hb] at ha
        exact hc.2 ha
      case isFalse hc => exact h

theorem prependRequired_decomp (tl : Str) :
    ∀ (ws : List WordConfig) (acc : List Str),
      ∃ R : List Str, prependRequired tl ws acc = R ++ acc ∧
        ∀ d ∈ R, ∃ w ∈ ws, displayOf w = d := by
  intro ws
  induction ws with
  | nil => intro acc; exact ⟨[], rfl, by simp⟩
  | cons w ws ih =>
      intro acc
      simp only [prependRequired]
      split
      case isTrue hc =>
        rcases ih (displayOf w :: acc) with ⟨R, hR, hmem⟩
        refine ⟨R ++ [displayOf w], by simp [hR], ?_⟩
        intro d hd
        rcases List.mem_append.mp hd with hd' | hd'
        · rcases hmem d hd' with ⟨w', hw', he⟩
          exact ⟨w', List.mem_cons_of_mem w hw', he⟩
        · exact ⟨w, List.mem_cons_self w ws, (List.mem_singleton.mp hd').symm⟩
      case isFalse hc =>
        rcases ih acc with ⟨R, hR, hmem⟩
        refine ⟨R, hR, ?_⟩
        intro d hd
        rcases hmem d hd with ⟨w', hw', he⟩
        exact ⟨w', List.mem_cons_of_mem w hw', he⟩

theorem prependRequired_nodup (tl : Str) :
    ∀ (ws : List WordConfig) (acc : List Str), acc.Nodup →
      (prependRequired tl ws acc).Nodup := by
  intro ws
  induction ws with
  | nil => intro acc h; exact h
  | cons w ws ih =>
      intro acc h
      simp only [prependRequired]
      apply ih
      split
      case isTrue hc => exact List.nodup_cons.mpr ⟨hc, h⟩
      case isFalse hc => exact h

/-- C2: every match result names the key of one of the supplied groups
and its matched list has at most three entries, no duplicate display
strings, and decomposes as required-term display strings followed by
normal-term display strings. -/
theorem find_matched_topics_matched_shape
    (title : Str) (gs : List WordGroup) (fws : List WordConfig) (gfs : List Str)
    (mr : MatchResult) (hmr : mr ∈ find_matched_topics title gs fws gfs) :
    mr.matched.length ≤ 3 ∧ mr.matched.Nodup ∧
    ∃ g ∈ gs, mr.topic = g.group_key ∧
      ∃ r n : List Str, mr.matched = r ++ n ∧
        (∀ d ∈ r, ∃ w ∈ g.required, displayOf w = d) ∧
        (∀ d ∈ n, ∃ w ∈ g.normal, displayOf w = d) := by
  unfold find_matched_topics at hmr
  split at hmr
  · exact absurd hmr (List.not_mem_nil mr)
  · split at hmr
    · exact absurd hmr (List.not_mem_nil mr)
    · split at hmr
      · exact absurd hmr (List.not_mem_nil mr)
      · rcases List.mem_filterMap.mp hmr with ⟨g, hg, hsome⟩
        unfold matchGroup at hsome
        split at hsome
        · exact absurd hsome (by simp)
        · split at hsome
          · exact absurd hsome (by simp)
          · split at hsome
            · exact absurd hsome (by simp)
            · have hmr' := (Option.some.injEq _ _).mp hsome
              set tl := lowerStr title
              set mw := collectNormal tl g.normal []
              rcases prependRequired_decomp tl g.required mw with ⟨R, hR, hRmem⟩
              have hnodup : (prependRequired tl g.required mw).Nodup :=
                prependRequired_nodup tl g.required mw
                  (collectNormal_nodup tl g.normal [] List.nodup_nil)
              refine ⟨?_, ?_, g, hg, ?_, ?_⟩
              · rw [← hmr']
                simp [List.length_take_le]
              · rw [← hmr']
                exact List.Nodup.sublist (List.take_sublist _ _) hnodup
              · rw [← hmr']
              · refine ⟨(R.take 3), (mw.take (3 - R.length)), ?_, ?_, ?_⟩
                · rw [← hmr']
                  simp only [hR]
                  exact List.take_append_eq_append_take
                · intro d hd
                  exact hRmem d (List.take_subset _ _ hd)
                · intro d hd
                  rcases collectNormal_mem tl g.normal [] d (List.take_subset _ _ hd) with
                    h' | h'
                  · exact absurd h' (List.not_mem_nil d)
                  · exact h'

theorem find_matched_topics_matched_shape_witness :
    (⟨toStr "k", [toStr "req", toStr "ai"]⟩ : MatchResult) ∈
      find_matched_topics (toStr "req ai story")
        [{ required := [⟨toStr "req", false, none, none⟩],
           normal := [⟨toStr "ai", false, none, none⟩], filter := [],
           group_key := toStr "k", max_count := 0, category := toStr "其他",
           keywords := [toStr "ai", toStr "req"] }] [] [] ∧
    (toStr "req" :: [toStr "ai"]).length ≤ 3 :=
  ⟨by decide,
   ((find_matched_topics_matched_shape (toStr "req ai story")
      [{ required := [⟨toStr "req", false, none, none⟩],
         normal := [⟨toStr "ai", false, none, none⟩], filter := [],
         group_key := toStr "k", max_count := 0, category := toStr "其他",
         keywords := [toStr "ai", toStr "req"] }] [] []
      ⟨toStr "k", [toStr "req", toStr "ai"]⟩ (by decide)).1)⟩

theorem freqProcessWord_fws_mono (rc : Str → Option (Str → Bool))
    (bs : FreqBlock) (fws : List WordConfig) (w : Str) (x : WordConfig)
    (hx : x ∈ fws) : x ∈ (freqProcessWord rc bs fws w).2 := by
  unfold freqProcessWord
  split
  · rcases hf : findSubIdx (toStr " @") (pyStrip w.tail) with _ | i <;> simp [hf, hx]
  · split
    · rcases hp : pyParseInt w.tail with _ | c
      · simp [hp, hx]
      · simp only [hp]
        split <;> simp [hx]
    · split
      · simp [hx]
      · split <;> simp [hx]

theorem freqProcessWord_filters_sub (rc : Str → Option (Str → Bool))
    (bs : FreqBlock) (fws : List WordConfig) (w : Str)
    (h : ∀ x ∈ bs.filters, x ∈ fws) :
    ∀ x ∈ (freqProcessWord rc bs fws w).1.filters,
      x ∈ (freqProcessWord rc bs fws w).2 := by
  unfold freqProcessWord
  split
  · rcases hf : findSubIdx (toStr " @") (pyStrip w.tail) with _ | i <;> simpa [hf] using h
  · split
    · rcases hp : pyParseInt w.tail with _ | c
      · simpa [hp] using h
      · simp only [hp]
        split <;> simpa using h
    · split
      · intro x hx
        simp only [List.mem_append] at hx ⊢
        rcases hx with hx | hx
        · exact Or.inl (h x hx)
        · exact Or.inr hx
      · split <;> simpa using h

theorem freqWordsFold_inv (rc : Str → Option (Str → Bool)) :
    ∀ (ws : List Str) (bs : FreqBlock) (fws : List WordConfig),
      (∀ x ∈ bs.filters, x ∈ fws) →
      (∀ x ∈ fws, x ∈ (freqWordsFold rc bs fws ws).2) ∧
      (∀ x ∈ (freqWordsFold rc bs fws ws).1.filters, x ∈ (freqWordsFold rc bs fws ws).2) := by
  intro ws
  induction ws with
  | nil => intro bs fws h; exact ⟨fun x hx => hx, h⟩
  | cons w ws ih =>
      intro bs fws h
      have hstep : freqWordsFold rc bs fws (w :: ws) =
          freqWordsFold rc (freqProcessWord rc bs fws w).1
            (freqProcessWord rc bs fws w).2 ws := by
        simp [freqWordsFold]
      rw [hstep]
      rcases ih (freqProcessWord rc bs fws w).1 (freqProcessWord rc bs fws w).2
          (freqProcessWord_filters_sub rc bs fws w h) with ⟨ih1, ih2⟩
      exact ⟨fun x hx => ih1 x (freqProcessWord_fws_mono rc bs fws w x hx), ih2⟩

theorem freqApplySection_inv (rc : Str → Option (Str → Bool))
    (st : FreqState) (sec : CfgSection) (body : List Str)
    (h : ∀ g ∈ st.groups, ∀ x ∈ g.filter, x ∈ st.filter_words) :
    ∀ g ∈ (freqApplySection rc st sec body).groups, ∀ x ∈ g.filter,
      x ∈ (freqApplySection rc st sec body).filter_words := by
  cases sec with
  | globalFilter => simpa [freqApplySection] using h
  | wordGroups =>
      have hfi := freqWordsFold_inv rc body initFreqBlock st.filter_words
        (by simp [initFreqBlock])
      rcases hfi with ⟨hmono, hfilters⟩
      rcases hfin : freqFinishBlock (freqWordsFold rc initFreqBlock st.filter_words body).1
        with _ | g2
      · simp only [freqApplySection, hfin]
        intro g hg x hx
        exact hmono x (h g hg x hx)
      · simp only [freqApplySection, hfin]
        intro g hg x hx
        rcases List.mem_append.mp hg with hg2 | hg2
        · exact hmono x (h g hg2 x hx)
        · have hgeq : g = g2 := List.mem_singleton.mp hg2
          have hfil : g2.filter = (freqWordsFold rc initFreqBlock st.filter_words body).1.filters := by
            unfold freqFinishBlock at hfin
            split at hfin
            · exact absurd hfin (by simp)
            · have hinj := (Option.some.injEq _ _).mp hfin
              rw [← hinj]
          rw [hgeq, hfil] at hx
          exact hfilters x hx

theorem freqProcessBlock_inv (rc : Str → Option (Str → Bool))
    (st : FreqState) (block : Str)
    (h : ∀ g ∈ st.groups, ∀ x ∈ g.filter, x ∈ st.filter_words) :
    ∀ g ∈ (freqProcessBlock rc st block).groups, ∀ x ∈ g.filter,
      x ∈ (freqProcessBlock rc st block).filter_words := by
  unfold freqProcessBlock
  split
  · exact h
  · exact freqApplySection_inv rc st _ _ h

/-- C4: a `!`-prefixed term inside any word-group block lands both in that
group's local filter list and in the returned standalone `filter_words`
list, and consequently a title matching any group-local filter term makes
`find_matched_topics` return the empty list for the whole configuration —
the filter suppresses every group, not only its own. -/
theorem group_filter_word_suppresses_all
    (rc : Str → Option (Str → Bool)) (content : Str) (g : WordGroup)
    (fw : WordConfig) (title : Str)
    (hg : g ∈ (load_frequency_words_extended rc content).1)
    (hfw : fw ∈ g.filter) :
    fw ∈ (load_frequency_words_extended rc content).2.1 ∧
    (word_matches fw (lowerStr title) = true →
      find_matched_topics title (load_frequency_words_extended rc content).1
        (load_frequency_words_extended rc content).2.1
        (load_frequency_words_extended rc content).2.2 = []) := by
  have hinv : ∀ g2 ∈ (loadFreqState rc content).groups, ∀ x ∈ g2.filter,
      x ∈ (loadFreqState rc content).filter_words := by
    unfold loadFreqState
    suffices hkey : ∀ (bs : List Str) (st : FreqState),
        (∀ g2 ∈ st.groups, ∀ x ∈ g2.filter, x ∈ st.filter_words) →
        ∀ g2 ∈ (bs.foldl (freqProcessBlock rc) st).groups, ∀ x ∈ g2.filter,
          x ∈ (bs.foldl (freqProcessBlock rc) st).filter_words by
      exact hkey _ _ (by simp)
    intro bs
    induction bs with
    | nil => intro st h; exact h
    | cons b bs ih => intro st h; exact ih _ (freqProcessBlock_inv rc st b h)
  have hfwmem : fw ∈ (load_frequency_words_extended rc content).2.1 :=
    hinv g hg fw hfw
  refine ⟨hfwmem, ?_⟩
  intro hmatch
  unfold find_matched_topics
  split
  · rfl
  · split
    · rfl
    · have hany : ((load_frequency_words_extended rc content).2.1.any
          fun fw2 => word_matches fw2 (lowerStr title)) = true :=
        List.any_eq_true.mpr ⟨fw, hfwmem, hmatch⟩
      simp [hany]

theorem group_filter_word_suppresses_all_witness :
    find_matched_topics (toStr "bad story")
      (load_frequency_words_extended rc0 (toStr "!bad\ngood")).1
      (load_frequency_words_extended rc0 (toStr "!bad\ngood")).2.1
      (load_frequency_words_extended rc0 (toStr "!bad\ngood")).2.2 = [] :=
  (group_filter_word_suppresses_all rc0 (toStr "!bad\ngood")
    { required := [], normal := [⟨toStr "good", false, none, none⟩],
      filter := [⟨toStr "bad", false, none, none⟩], group_key := toStr "good",
      max_count := 0, category := toStr "其他", keywords := [toStr "good"] }
    ⟨toStr "bad", false, none, none⟩ (toStr "bad story")
    (by exact List.Mem.head _) (by exact List.Mem.head _)).2 rfl

theorem pySort_subset {α : Type} (le : α → α → Bool) (l : List α) :
    ∀ a ∈ pySort le l, a ∈ l := fun a ha =>
  (mem_pySort le a l [] ha).resolve_left (List.not_mem_nil a)

/-- C3 counterexample: in `get_data_from_db`, a row from a disabled
platform is skipped before topic attribution, so its title — although it
matches the only topic — appears in no topic bucket (and in no source
bucket): the topic view is not preserved for disabled sources. -/
theorem db_disabled_drops_topic_items_cex :
    find_matched_topics (toStr "big news")
      [{ required := [], normal := [⟨toStr "news", false, none, none⟩], filter := [],
         group_key := toStr "news", max_count := 0, category := toStr "其他",
         keywords := [toStr "news"] }] [] [] =
      [⟨toStr "news", [toStr "news"]⟩] ∧
    (get_data_from_db_news
        [{ required := [], normal := [⟨toStr "news", false, none, none⟩], filter := [],
           group_key := toStr "news", max_count := 0, category := toStr "其他",
           keywords := [toStr "news"] }] [] []
        [⟨toStr "p1", toStr "P One", false⟩]
        [⟨toStr "big news", toStr "u", 1, toStr "p1", some (toStr "P One"), false⟩]).1.map
      (fun t => t.news) = [[]] ∧
    (get_data_from_db_news
        [{ required := [], normal := [⟨toStr "news", false, none, none⟩], filter := [],
           group_key := toStr "news", max_count := 0, category := toStr "其他",
           keywords := [toStr "news"] }] [] []
        [⟨toStr "p1", toStr "P One", false⟩]
        [⟨toStr "big news", toStr "u", 1, toStr "p1", some (toStr "P One"), false⟩]).2 = [] :=
  ⟨by decide, by decide, by decide⟩

/-- C9 counterexample: in `get_data_from_db` two sources with equal
configured order (both unconfigured, sentinel 999) come out in insertion
order — counts 1 then 2 — not in count-descending order. -/
theorem db_sources_tie_not_count_cex :
    (db_sources_sorted
        [{ required := [], normal := [⟨toStr "news", false, none, none⟩], filter := [],
           group_key := toStr "news", max_count := 0, category := toStr "其他",
           keywords := [toStr "news"] }] [] [] []
        [⟨toStr "a news", toStr "u1", 1, toStr "pa", some (toStr "A"), false⟩,
         ⟨toStr "b news", toStr "u2", 1, toStr "pb", some (toStr "B"), false⟩,
         ⟨toStr "b2 news", toStr "u3", 2, toStr "pb", some (toStr "B"), false⟩]).map
      (fun s => (s.name, s.order, s.news.length)) =
    [(toStr "A", 999, 1), (toStr "B", 999, 2)] := by decide

/-- C5 counterexample: `load_frequency_words_extended` does not split a
line on `,` (it becomes one normal term `"japan,korea"`) and does not
treat a trailing `!` as a filter marker (`"risk!"` stays a normal term,
and the standalone filter list stays empty), while `_parse_word_block` on
the same lines does both. -/
theorem freq_no_token_split_cex :
    ((load_frequency_words_extended rc0 (toStr "risk!\njapan,korea")).1.map fun g =>
      (g.required.map (fun w => w.word), g.normal.map (fun w => w.word),
        g.filter.map (fun w => w.word))) =
      [([], [toStr "risk!", toStr "japan,korea"], [])] ∧
    ((load_frequency_words_extended rc0 (toStr "risk!\njapan,korea")).2.1.map
      fun w => w.word) = [] ∧
    _parse_word_block [toStr "risk!", toStr "japan,korea"] =
      some { required := [], normal := [toStr "japan", toStr "korea"],
             filter_words := [toStr "risk"], group_key := toStr "japan",
             max_count := 0, category := toStr "其他" } :=
  ⟨by decide, by decide, by decide⟩

/-- C6 counterexample: in a block with no `#` name whose first term has no
alias, `load_frequency_words_extended` takes the alias of the first
aliased term anywhere in the group (`"B"`), not the first term's
alias-or-literal (`"aa"`). -/
theorem freq_group_key_first_alias_cex :
    ((load_frequency_words_extended rc0 (toStr "aa\nbb => B")).1.map fun g =>
      (g.group_key, g.normal.map fun w => (w.word, w.display_name))) =
    [(toStr "B", [(toStr "aa", none), (toStr "bb", some (toStr "B"))])] := by
  decide

/-- C5 amended: in `_parse_word_block` a non-directive line containing `|`
or `,` is expanded to its separator-split tokens folded through
`add_token`, and `add_token` classifies a token ending in `!` (resp. `+`)
that does not start with `+` or `!` as a group filter (resp. required)
term.  (`load_frequency_words_extended` has neither rule, as the
counterexample shows.) -/
theorem mcp_token_split_and_suffix_rules :
    (∀ (st : McpBlock) (l : Str), l.head? ≠ some '#' → l.head? ≠ some '@' →
      (l.contains '|' || l.contains ',') = true →
      processMcpLine st l = (splitSeps l).foldl add_token st) ∧
    (∀ (st : McpBlock) (t : Str), (pyStrip t).isEmpty = false →
      (pyStrip t).head? ≠ some '+' → (pyStrip t).head? ≠ some '!' →
      (pyStrip t).getLast? = some '!' →
      add_token st t =
        if (pyStrip (pyStrip t).dropLast).isEmpty then st
        else { st with filters := st.filters ++ [pyStrip (pyStrip t).dropLast] }) ∧
    (∀ (st : McpBlock) (t : Str), (pyStrip t).isEmpty = false →
      (pyStrip t).head? ≠ some '+' → (pyStrip t).head? ≠ some '!' →
      (pyStrip t).getLast? = some '+' →
      add_token st t =
        if (pyStrip (pyStrip t).dropLast).isEmpty then st
        else { st with required := st.required ++ [pyStrip (pyStrip t).dropLast] }) := by
  refine ⟨?_, ?_, ?_⟩
  · intro st l h1 h2 h3
    unfold processMcpLine
    rw [if_neg h1, if_neg h2, if_pos h3]
  · intro st t ht hp hb hlast
    simp [add_token, ht, hp, hb, hlast]
  · intro st t ht hp hb hlast
    simp [add_token, ht, hp, hb, hlast]

theorem mcp_token_split_and_suffix_rules_witness :
    processMcpLine initMcpBlock (toStr "japan,korea") =
      (splitSeps (toStr "japan,korea")).foldl add_token initMcpBlock ∧
    add_token initMcpBlock (toStr "risk!") =
      { initMcpBlock with filters := initMcpBlock.filters ++ [toStr "risk"] } :=
  ⟨mcp_token_split_and_suffix_rules.1 initMcpBlock (toStr "japan,korea")
      (by decide) (by decide) (by decide),
   by
    have h := mcp_token_split_and_suffix_rules.2.1 initMcpBlock (toStr "risk!")
      (by decide) (by decide) (by decide) (by decide)
    rw [h]
    decide⟩

theorem freqProcessWord_name (rc : Str → Option (Str → Bool))
    (bs : FreqBlock) (fws : List WordConfig) (w : Str)
    (h : w.head? ≠ some '#') : (freqProcessWord rc bs fws w).1.name = bs.name := by
  unfold freqProcessWord
  rw [if_neg h]
  split
  · rcases hp : pyParseInt w.tail with _ | c
    · simp [hp]
    · simp only [hp]
      split <;> simp
  · split
    · simp
    · split <;> simp

theorem freqWordsFold_name_none (rc : Str → Option (Str → Bool)) :
    ∀ (ws : List Str) (bs : FreqBlock) (fws : List WordConfig),
      (∀ l ∈ ws, l.head? ≠ some '#') → bs.name = none →
      (freqWordsFold rc bs fws ws).1.name = none := by
  intro ws
  induction ws with
  | nil => intro bs fws _ hn; exact hn
  | cons w ws ih =>
      intro bs fws h hn
      have hstep : freqWordsFold rc bs fws (w :: ws) =
          freqWordsFold rc (freqProcessWord rc bs fws w).1
            (freqProcessWord rc bs fws w).2 ws := by
        simp [freqWordsFold]
      rw [hstep]
      refine ih _ _ (fun l hl => h l (List.mem_cons_of_mem w hl)) ?_
      rw [freqProcessWord_name rc bs fws w (h w (List.mem_cons_self w ws))]
      exact hn

theorem add_token_name (st : McpBlock) (t : Str) : (add_token st t).name = st.name := by
  simp only [add_token]
  repeat' split
  all_goals rfl

theorem processMcpLine_name (st : McpBlock) (l : Str)
    (h : l.head? ≠ some '#') : (processMcpLine st l).name = st.name := by
  unfold processMcpLine
  rw [if_neg h]
  split
  · rcases hp : pyParseInt (pyStrip l.tail) with _ | c
    · simp [hp]
    · simp only [hp]
      split <;> simp
  · split
    · have : ∀ (ts : List Str) (st2 : McpBlock),
          (ts.foldl add_token st2).name = st2.name := by
        intro ts
        induction ts with
        | nil => intro st2; rfl
        | cons t2 ts ih =>
            intro st2
            simp only [List.foldl_cons]
            rw [ih, add_token_name]
      exact this _ st
    · exact add_token_name st l

theorem mcpLinesFold_name_none :
    ∀ (lines : List Str) (st : McpBlock),
      (∀ l ∈ lines, l.head? ≠ some '#') → st.name = none →
      (lines.foldl processMcpLine st).name = none := by
  intro lines
  induction lines with
  | nil => intro st _ hn; exact hn
  | cons l lines ih =>
      intro st h hn
      simp only [List.foldl_cons]
      refine ih _ (fun l2 hl => h l2 (List.mem_cons_of_mem l hl)) ?_
      rw [processMcpLine_name st l (h l (List.mem_cons_self l lines))]
      exact hn

/-- C6 amended: for a block with no `#` name line, in
`load_frequency_words_extended` the group key is the alias of the first
term carrying one (scanning normal then required terms), else the first
normal term's display-or-literal, else the first required term's (the
`freqGroupKey none` rule); in `_parse_word_block` it is the first normal
token, else the first required token. -/
theorem group_key_default_characterisation :
    (∀ (rc : Str → Option (Str → Bool)) (ws : List Str) (fws : List WordConfig)
        (g : WordGroup), (∀ l ∈ ws, l.head? ≠ some '#') →
      freqFinishBlock (freqWordsFold rc initFreqBlock fws ws).1 = some g →
      g.group_key = freqGroupKey none g.normal g.required) ∧
    (∀ (lines : List Str) (g : McpGroup), (∀ l ∈ lines, l.head? ≠ some '#') →
      _parse_word_block lines = some g →
      g.group_key = (match g.normal with
                     | n :: _ => n
                     | [] => g.required.headD [])) := by
  constructor
  · intro rc ws fws g h hfin
    have hname : (freqWordsFold rc initFreqBlock fws ws).1.name = none :=
      freqWordsFold_name_none rc ws initFreqBlock fws h rfl
    unfold freqFinishBlock at hfin
    split at hfin
    · exact absurd hfin (by simp)
    · have hinj := (Option.some.injEq _ _).mp hfin
      rw [← hinj]
      simp only
      rw [hname]
  · intro lines g h hfin
    have hname : (lines.foldl processMcpLine initMcpBlock).name = none :=
      mcpLinesFold_name_none lines initMcpBlock h rfl
    simp only [_parse_word_block] at hfin
    split at hfin
    · exact absurd hfin (by simp)
    · have hinj := (Option.some.injEq _ _).mp hfin
      rw [← hinj]
      simp only
      rw [hname]

theorem group_key_default_characterisation_witness :
    ({ required := [], normal := [⟨toStr "aa", false, none, none⟩,
         ⟨toStr "bb", false, none, some (toStr "B")⟩], filter := [],
       group_key := toStr "B", max_count := 0, category := toStr "其他",
       keywords := [toStr "aa", toStr "B"] } : WordGroup).group_key =
      freqGroupKey none
        [⟨toStr "aa", false, none, none⟩, ⟨toStr "bb", false, none, some (toStr "B")⟩]
        [] :=
  group_key_default_characterisation.1 rc0 [toStr "aa", toStr "bb => B"] []
    { required := [], normal := [⟨toStr "aa", false, none, none⟩,
        ⟨toStr "bb", false, none, some (toStr "B")⟩], filter := [],
      group_key := toStr "B", max_count := 0, category := toStr "其他",
      keywords := [toStr "aa", toStr "B"] }
    (by decide) rfl

theorem dbProcessRow_disabled (gs : List WordGroup) (fws : List WordConfig)
    (gfs : List Str) (ps : List Platform)
    (st : List TopicState × List SourceState) (r : NewsRow)
    (h : (platEnabledById ps r.platform_id).getD true = false) :
    dbProcessRow gs fws gfs ps st r = st := by
  simp [dbProcessRow, h]

/-- C3 amended: disabled sources never appear among the source buckets of
either aggregation path, and in `parse_index_html` the topic view is
independent of the platform configuration (disabled platforms keep their
items in topic buckets); in `get_data_from_db`, however, a row of a
disabled platform is a no-op for the whole aggregation — its items are
excluded from topic views as well as source views. -/
theorem disabled_sources_in_views :
    (∀ (gs : List WordGroup) (fws : List WordConfig) (gfs : List Str)
        (ps : List Platform) (ts : List HTopic) (s : PSource),
      s ∈ parse_sources_sorted gs fws gfs ps ts →
      (platEnabledByName ps s.name).getD true = true) ∧
    (∀ (gs : List WordGroup) (fws : List WordConfig) (gfs : List Str)
        (ps1 ps2 : List Platform) (ts : List HTopic),
      (parse_index_agg gs fws gfs ps1 ts).1 = (parse_index_agg gs fws gfs ps2 ts).1) ∧
    (∀ (gs : List WordGroup) (fws : List WordConfig) (gfs : List Str)
        (ps : List Platform) (r : NewsRow) (pre post : List NewsRow),
      (platEnabledById ps r.platform_id).getD true = false →
      get_data_from_db_news gs fws gfs ps (pre ++ r :: post) =
        get_data_from_db_news gs fws gfs ps (pre ++ post)) := by
  refine ⟨?_, ?_, ?_⟩
  · intro gs fws gfs ps ts s hs
    simp only [parse_sources_sorted] at hs
    have hs2 := pySort_subset parseSourceLe _ s hs
    have hs3 := List.mem_filter.mp hs2
    simpa using hs3.2
  · intro gs fws gfs ps1 ps2 ts
    rfl
  · intro gs fws gfs ps r pre post h
    simp only [get_data_from_db_news, List.foldl_append, List.foldl_cons]
    rw [dbProcessRow_disabled gs fws gfs ps _ r h]

theorem disabled_sources_in_views_witness :
    get_data_from_db_news
      [{ required := [], normal := [⟨toStr "news", false, none, none⟩], filter := [],
         group_key := toStr "news", max_count := 0, category := toStr "其他",
         keywords := [toStr "news"] }] [] []
      [⟨toStr "p1", toStr "P One", false⟩]
      ([] ++ (⟨toStr "big news", toStr "u", 1, toStr "p1", some (toStr "P One"), false⟩ : NewsRow) :: []) =
    get_data_from_db_news
      [{ required := [], normal := [⟨toStr "news", false, none, none⟩], filter := [],
         group_key := toStr "news", max_count := 0, category := toStr "其他",
         keywords := [toStr "news"] }] [] []
      [⟨toStr "p1", toStr "P One", false⟩] ([] ++ []) :=
  disabled_sources_in_views.2.2
    [{ required := [], normal := [⟨toStr "news", false, none, none⟩], filter := [],
       group_key := toStr "news", max_count := 0, category := toStr "其他",
       keywords := [toStr "news"] }] [] []
    [⟨toStr "p1", toStr "P One", false⟩]
    ⟨toStr "big news", toStr "u", 1, toStr "p1", some (toStr "P One"), false⟩
    [] [] (by decide)

/-- C9 amended: `parse_index_html` sorts its source buckets by configured
order ascending with ties broken by item count descending; the source
buckets of `get_data_from_db` are only guaranteed ascending in configured
order — equal-order sources keep their insertion order, with no count
tiebreak. -/
theorem source_buckets_sorted :
    (∀ (gs : List WordGroup) (fws : List WordConfig) (gfs : List Str)
        (ps : List Platform) (ts : List HTopic),
      (parse_sources_sorted gs fws gfs ps ts).Pairwise
        (fun a b => parseSourceLe a b = true)) ∧
    (∀ (gs : List WordGroup) (fws : List WordConfig) (gfs : List Str)
        (ps : List Platform) (rows : List NewsRow),
      (db_sources_sorted gs fws gfs ps rows).Pairwise
        (fun a b => a.order ≤ b.order)) := by
  constructor
  · intro gs fws gfs ps ts
    apply pairwise_pySort
    · intro a b
      simp only [parseSourceLe, decide_eq_true_eq]
      omega
    · intro a b c
      simp only [parseSourceLe, decide_eq_true_eq]
      omega
  · intro gs fws gfs ps rows
    have h := pairwise_pySort (fun a b : SourceState => decide (a.order ≤ b.order))
      (by intro a b; simp only [decide_eq_true_eq]; omega)
      (by intro a b c; simp only [decide_eq_true_eq]; omega)
      (get_data_from_db_news gs fws gfs ps rows).2
    unfold db_sources_sorted
    exact h.imp (by intro a b hab; simpa using hab)
